import Mathlib

/-!
Verification of the darts-clone double-array trie (branches/0.32g, include/darts.h)
against its natural-language specification.

The C++ source is shallowly embedded: 32-bit machine words are modelled as
`Nat` (kept below `2 ^ 32` by the masking the source itself performs), the
unit array as `Array Nat`, and the builders as explicit state-passing
functions.  Loops whose termination is not structural receive explicit fuel.
Array reads `array_[i]` are modelled as `Array.getD i 0`; every execution
relevant to a theorem below stays in bounds, where the two coincide.
-/

namespace Darts

/-! ## DoubleArrayUnit (darts.h lines 30-48)

Accessors of one packed 32-bit unit of the finished double array. -/

namespace DoubleArrayUnit

/-- Source `has_leaf()`: `((unit_ >> 8) & 1) == 1`. -/
def has_leaf (u : Nat) : Bool :=
  (u >>> 8) &&& 1 == 1

/-- Source `value()`: `unit_ & ((1U << 31) - 1)`. -/
def value (u : Nat) : Nat :=
  u &&& ((1 <<< 31) - 1)

/-- Source `label()`: `unit_ & ((1U << 31) | 0xFF)`. -/
def label (u : Nat) : Nat :=
  u &&& ((1 <<< 31) ||| 0xFF)

/-- Source `offset()`: `(unit_ >> 10) << ((unit_ & (1U << 9)) >> 6)`. -/
def offset (u : Nat) : Nat :=
  (u >>> 10) <<< ((u &&& (1 <<< 9)) >>> 6)

end DoubleArrayUnit

/-! ## DoubleArrayBuilderUnit (darts.h lines 1182-1216)

The builder-side unit has the same 32-bit layout; its setters. -/

namespace BuilderUnit

/-- Source `set_has_leaf`: sets or clears bit 8. -/
def set_has_leaf (u : Nat) (b : Bool) : Nat :=
  if b then u ||| (1 <<< 8) else u &&& 0xFFFFFEFF

/-- Source `set_value`: `unit_ = value | (1U << 31)` (a full overwrite).
The argument is the non-negative `value_type` seen as a `Nat`. -/
def set_value (v : Nat) : Nat :=
  v ||| (1 <<< 31)

/-- Source `set_label`: `unit_ = (unit_ & ~0xFFU) | label`. -/
def set_label (u l : Nat) : Nat :=
  (u &&& 0xFFFFFF00) ||| l

/-- Word computed by the non-throwing part of source `set_offset`:
keep bits 31, 8 and 0..7, then merge the offset payload, either directly at
bit 10 (small offsets) or pre-shifted by 8 with the `offset_high` bit 9 set. -/
def set_offset_word (u off : Nat) : Nat :=
  let u₀ := u &&& ((1 <<< 31) ||| (1 <<< 8) ||| 0xFF)
  if off < 1 <<< 21 then u₀ ||| (off <<< 10)
  else u₀ ||| ((off <<< 2) ||| (1 <<< 9))

/-- Source `set_offset`: throws on `offset >= 1U << 29`, otherwise stores
`set_offset_word`. -/
def set_offset (u off : Nat) : Except String Nat :=
  if (1 <<< 29) ≤ off then Except.error "failed to modify unit: too large offset"
  else Except.ok (set_offset_word u off)

end BuilderUnit

/-! ## Reader (darts.h lines 289-419)

The three query routines of `DoubleArrayImpl`, over a raw unit array.
Keys are byte lists (`List Nat`, entries below 256 at every call site).
All three follow the explicit-length code paths of the source. -/

/-- Unit read `array_[i]`. -/
def unitAt (a : Array Nat) (i : Nat) : Nat :=
  a.getD i 0

/-- Loop of `exactMatchSearch` (darts.h lines 300-316 and 319-324): walk one
byte at a time via `node_pos ^= unit.offset() ^ byte`, fail on a label
mismatch, and at the end of the key read the leaf value below `has_leaf`. -/
def exactGo (a : Array Nat) : List Nat → Nat → Int
  | [], pos =>
    let u := unitAt a pos
    if DoubleArrayUnit.has_leaf u then
      Int.ofNat (DoubleArrayUnit.value (unitAt a (pos ^^^ DoubleArrayUnit.offset u)))
    else -1
  | c :: rest, pos =>
    let pos₁ := pos ^^^ DoubleArrayUnit.offset (unitAt a pos) ^^^ c
    if DoubleArrayUnit.label (unitAt a pos₁) = c then exactGo a rest pos₁ else -1

/-- Source `exactMatchSearch(key, length, node_pos)` with explicit length. -/
def exactMatchSearch (a : Array Nat) (key : List Nat) (node_pos : Nat) : Int :=
  exactGo a key node_pos

/-- Loop of `commonPrefixSearch` (darts.h lines 339-356): the start node's
offset is already folded into `pos`; per byte, fold the byte, check the
label, fold the unit's offset, and record `(value, i + 1)` when `has_leaf`
is set — into the result list only while `num < maxr`, but always counted. -/
def cpsGo (a : Array Nat) (maxr : Nat) :
    List Nat → Nat → Nat → Nat → List (Int × Nat) → Nat × List (Int × Nat)
  | [], _, _, num, res => (num, res)
  | c :: rest, pos, i, num, res =>
    let pos₁ := pos ^^^ c
    let u := unitAt a pos₁
    if DoubleArrayUnit.label u = c then
      let pos₂ := pos₁ ^^^ DoubleArrayUnit.offset u
      if DoubleArrayUnit.has_leaf u then
        let res₁ := if num < maxr then
          res ++ [(Int.ofNat (DoubleArrayUnit.value (unitAt a pos₂)), i + 1)] else res
        cpsGo a maxr rest pos₂ (i + 1) (num + 1) res₁
      else cpsGo a maxr rest pos₂ (i + 1) num res
    else (num, res)

/-- Source `commonPrefixSearch(key, results, max_num_results, length, node_pos)`:
returns the count together with the recorded `(value, prefix_length)` pairs. -/
def commonPrefixSearch (a : Array Nat) (key : List Nat) (maxr : Nat) (node_pos : Nat) :
    Nat × List (Int × Nat) :=
  cpsGo a maxr key (node_pos ^^^ DoubleArrayUnit.offset (unitAt a node_pos)) 0 0 []

/-- Loop of `traverse` (darts.h lines 393-418), recursing over the key bytes
not yet consumed; `id` is the working node, `kp` the key cursor.  Returns
`(result, node_pos, key_pos)`: on a mismatch the result is `-2` and the
state is the one before the failed step, exactly as in the source where
`node_pos = id` runs only after the label check. -/
def travGo (a : Array Nat) : List Nat → Nat → Nat → Int × Nat × Nat
  | [], id, kp =>
    let u := unitAt a id
    if DoubleArrayUnit.has_leaf u then
      (Int.ofNat (DoubleArrayUnit.value (unitAt a (id ^^^ DoubleArrayUnit.offset u))), id, kp)
    else (-1, id, kp)
  | c :: rest, id, kp =>
    let id₁ := id ^^^ DoubleArrayUnit.offset (unitAt a id) ^^^ c
    if DoubleArrayUnit.label (unitAt a id₁) = c then travGo a rest id₁ (kp + 1)
    else (-2, id, kp)

/-- Source `traverse(key, node_pos, key_pos, length)`: consume the bytes of
`key` from position `key_pos` on, starting at node `node_pos`. -/
def traverse (a : Array Nat) (key : List Nat) (node_pos key_pos : Nat) : Int × Nat × Nat :=
  travGo a (key.drop key_pos) node_pos key_pos

end Darts


namespace Darts

/-! ## Bit-level facts about the unit layout (claims C8 and C10) -/

/-- Bits of the mask `(1U << 31) | (1U << 8) | 0xFF` kept by `set_offset`. -/
theorem keep_mask_testBit (i : Nat) :
    (((1 <<< 31) ||| (1 <<< 8) ||| 0xFF : Nat)).testBit i =
      ((decide (31 = i) || decide (8 = i)) || decide (i < 8)) := by
  rw [show ((1 <<< 31) ||| (1 <<< 8) ||| 0xFF : Nat) = (2 ^ 31 ||| 2 ^ 8 ||| (2 ^ 8 - 1)) by decide,
    Nat.testBit_or, Nat.testBit_or, Nat.testBit_two_pow, Nat.testBit_two_pow,
    Nat.testBit_two_pow_sub_one]

theorem kept_part_testBit_high (u i : Nat) (hu : u.testBit 31 = false) (hge : 9 ≤ i) :
    (u &&& ((1 <<< 31) ||| (1 <<< 8) ||| 0xFF)).testBit i = false := by
  rw [Nat.testBit_and, keep_mask_testBit]
  by_cases h : i = 31
  · subst h
    simp [hu]
  · have h31 : decide (31 = i) = false := by simp; omega
    have h8 : decide (8 = i) = false := by simp; omega
    have hlt : decide (i < 8) = false := by simp; omega
    simp [h31, h8, hlt]

theorem bit512_testBit (j : Nat) : (512 : Nat).testBit j = decide (9 = j) := by
  rw [show (512 : Nat) = 2 ^ 9 by norm_num, Nat.testBit_two_pow]

theorem set_offset_word_small (u o : Nat) (hu : u.testBit 31 = false)
    (ho : o < 1 <<< 21) :
    (BuilderUnit.set_offset_word u o).testBit 9 = false ∧
    BuilderUnit.set_offset_word u o >>> 10 = o := by
  unfold BuilderUnit.set_offset_word
  rw [if_pos ho]
  constructor
  · rw [Nat.testBit_or, kept_part_testBit_high u 9 hu (by omega), Nat.testBit_shiftLeft]
    simp
  · apply Nat.eq_of_testBit_eq
    intro i
    rw [Nat.testBit_shiftRight, Nat.testBit_or,
      kept_part_testBit_high u (10 + i) hu (by omega), Nat.testBit_shiftLeft,
      decide_eq_true (by omega : 10 ≤ 10 + i)]
    simp

theorem set_offset_word_large (u o : Nat) (hu : u.testBit 31 = false)
    (ho : (1 <<< 21) ≤ o) :
    (BuilderUnit.set_offset_word u o).testBit 9 = true ∧
    BuilderUnit.set_offset_word u o >>> 10 = o >>> 8 := by
  unfold BuilderUnit.set_offset_word
  rw [if_neg (by omega)]
  rw [show ((1 : Nat) <<< 9) = 512 by decide]
  constructor
  · rw [Nat.testBit_or, Nat.testBit_or, bit512_testBit]
    simp
  · apply Nat.eq_of_testBit_eq
    intro i
    rw [Nat.testBit_shiftRight, Nat.testBit_or,
      kept_part_testBit_high u (10 + i) hu (by omega), Nat.testBit_or,
      bit512_testBit, Nat.testBit_shiftLeft, Nat.testBit_shiftRight,
      decide_eq_true (by omega : 2 ≤ 10 + i),
      decide_eq_false (by omega : ¬ (9 = 10 + i)),
      show 10 + i - 2 = 8 + i by omega]
    simp

/-- Helper: a word whose bit 9 is clear reads back its offset as `word >>> 10`. -/
theorem offset_of_bit9_false (w : Nat) (h : w.testBit 9 = false) :
    DoubleArrayUnit.offset w = w >>> 10 := by
  unfold DoubleArrayUnit.offset
  rw [show ((1 : Nat) <<< 9) = 2 ^ 9 by decide, Nat.and_two_pow, h]
  simp

/-- Helper: a word whose bit 9 is set reads back its offset pre-shifted by 8. -/
theorem offset_of_bit9_true (w : Nat) (h : w.testBit 9 = true) :
    DoubleArrayUnit.offset w = (w >>> 10) <<< 8 := by
  unfold DoubleArrayUnit.offset
  rw [show ((1 : Nat) <<< 9) = 2 ^ 9 by decide, Nat.and_two_pow, h,
    show ((true.toNat * 2 ^ 9) >>> 6 : Nat) = 8 by decide]

/-- C8: `DoubleArrayBuilderUnit::set_offset(o)` fails exactly when `o ≥ 2^29`;
otherwise, for any prior unit word `u` whose `has_value` bit 31 is clear (as at
every call site), whenever `o < 2^21` or the low 8 bits of `o` are zero,
`DoubleArrayUnit::offset()` of the stored word yields `o` back: small offsets
keep the payload `w >>> 10` directly (bit 9, `offset_high`, clear), large ones
store it pre-shifted by 8 with bit 9 set. -/
theorem set_offset_roundtrip (u o : Nat) (hu : u.testBit 31 = false) :
    ((∃ e, BuilderUnit.set_offset u o = Except.error e) ↔ (1 <<< 29) ≤ o) ∧
    (o < 1 <<< 29 →
      BuilderUnit.set_offset u o = Except.ok (BuilderUnit.set_offset_word u o) ∧
      (o < 1 <<< 21 →
        (BuilderUnit.set_offset_word u o).testBit 9 = false ∧
        DoubleArrayUnit.offset (BuilderUnit.set_offset_word u o) = o) ∧
      ((1 <<< 21) ≤ o → o % 256 = 0 →
        (BuilderUnit.set_offset_word u o).testBit 9 = true ∧
        DoubleArrayUnit.offset (BuilderUnit.set_offset_word u o) = o)) := by
  refine ⟨⟨fun ⟨e, he⟩ => ?_, fun h => ⟨_, by rw [BuilderUnit.set_offset, if_pos h]⟩⟩,
    fun hlt => ⟨?_, ?_, ?_⟩⟩
  · by_contra hcon
    rw [BuilderUnit.set_offset, if_neg hcon] at he
    exact Except.noConfusion he
  · rw [BuilderUnit.set_offset, if_neg (by omega)]
  · intro hsmall
    obtain ⟨h9, h10⟩ := set_offset_word_small u o hu hsmall
    exact ⟨h9, by rw [offset_of_bit9_false _ h9, h10]⟩
  · intro hlarge hmod
    obtain ⟨h9, h10⟩ := set_offset_word_large u o hu hlarge
    refine ⟨h9, ?_⟩
    rw [offset_of_bit9_true _ h9, h10, Nat.shiftLeft_eq, Nat.shiftRight_eq_div_pow]
    have hdvd : (256 : Nat) ∣ o := by omega
    rw [show ((2 : Nat) ^ 8 = 256) by norm_num, Nat.div_mul_cancel hdvd]

/-- C8 witness: a concrete large offset with zero low byte round-trips. -/
theorem set_offset_roundtrip_witness :
    (BuilderUnit.set_offset_word 257 3145728).testBit 9 = true ∧
    DoubleArrayUnit.offset (BuilderUnit.set_offset_word 257 3145728) = 3145728 :=
  ((set_offset_roundtrip 257 3145728 (by decide)).2 (by decide)).2.2 (by decide) (by decide)

end Darts

namespace Darts

/-- C10: any unit word whose `has_value` bit 31 is set (as written by
`DoubleArrayBuilderUnit::set_value`, whose output always has bit 31 set)
reports a `label()` that also includes bit 31, hence is at least `2^31` and
never equal to a key byte in `0..255`; consequently the label comparison of
`exactMatchSearch`, `commonPrefixSearch` and `traverse` fails as soon as the
walk reaches such a value unit, so a query that strictly extends a stored key
never follows an edge into the value payload. -/
theorem value_unit_label_mismatch (u c : Nat) (hc : c < 256) (hv : u.testBit 31 = true) :
    (DoubleArrayUnit.label u).testBit 31 = true ∧
    2 ^ 31 ≤ DoubleArrayUnit.label u ∧
    DoubleArrayUnit.label u ≠ c ∧
    (∀ v, (BuilderUnit.set_value v).testBit 31 = true) ∧
    (∀ a pos rest, unitAt a (pos ^^^ DoubleArrayUnit.offset (unitAt a pos) ^^^ c) = u →
      exactGo a (c :: rest) pos = -1) ∧
    (∀ a maxr pos i num res rest, unitAt a (pos ^^^ c) = u →
      cpsGo a maxr (c :: rest) pos i num res = (num, res)) ∧
    (∀ a id kp rest, unitAt a (id ^^^ DoubleArrayUnit.offset (unitAt a id) ^^^ c) = u →
      travGo a (c :: rest) id kp = (-2, id, kp)) := by
  have hbit : (DoubleArrayUnit.label u).testBit 31 = true := by
    unfold DoubleArrayUnit.label
    rw [Nat.testBit_and, hv,
      show (((1 <<< 31) ||| 0xFF : Nat)).testBit 31 = true by decide]
    rfl
  have hge : 2 ^ 31 ≤ DoubleArrayUnit.label u := Nat.testBit_implies_ge hbit
  have hne : DoubleArrayUnit.label u ≠ c := by
    have : (2 : Nat) ^ 31 = 2147483648 := by norm_num
    omega
  refine ⟨hbit, hge, hne, ?_, ?_, ?_, ?_⟩
  · intro v
    unfold BuilderUnit.set_value
    rw [Nat.testBit_or, show ((1 <<< 31 : Nat)).testBit 31 = true by decide]
    simp
  · intro a pos rest hat
    unfold exactGo
    simp only [hat, if_neg hne]
  · intro a maxr pos i num res rest hat
    unfold cpsGo
    simp only [hat, if_neg hne]
  · intro a id kp rest hat
    unfold travGo
    simp only [hat, if_neg hne]

/-- C10 witness: a concrete two-unit array where the step from node 0 on byte 0
lands on the value unit `2^31 + 5`, and `traverse` reports the mismatch. -/
theorem value_unit_label_mismatch_witness :
    travGo (List.toArray [1024, 2 ^ 31 + 5]) [0] 0 0 = (-2, 0, 0) :=
  (value_unit_label_mismatch (2 ^ 31 + 5) 0 (by decide) (by decide)).2.2.2.2.2.2
    (List.toArray [1024, 2 ^ 31 + 5]) 0 0 [] (by decide)

end Darts

namespace Darts

/-! ## Claim C3: behaviour of `traverse` (spec 4.4.3)

Spec-side characterisation, following the words of the claim: the number of
key bytes that match, and the node reached after the matching steps. -/

/-- Number of leading key bytes whose labels match along the walk. -/
def matchSteps (a : Array Nat) : List Nat → Nat → Nat
  | [], _ => 0
  | c :: rest, pos =>
    let pos₁ := pos ^^^ DoubleArrayUnit.offset (unitAt a pos) ^^^ c
    if DoubleArrayUnit.label (unitAt a pos₁) = c then matchSteps a rest pos₁ + 1 else 0

/-- Node reached after following the given bytes (no match checking). -/
def nodeAfter (a : Array Nat) : List Nat → Nat → Nat
  | [], pos => pos
  | c :: rest, pos => nodeAfter a rest (pos ^^^ DoubleArrayUnit.offset (unitAt a pos) ^^^ c)

theorem matchSteps_le (a : Array Nat) (key : List Nat) (pos : Nat) :
    matchSteps a key pos ≤ key.length := by
  induction key generalizing pos with
  | nil => simp [matchSteps]
  | cons c rest ih =>
    unfold matchSteps
    dsimp only
    split
    · exact Nat.succ_le_succ (ih _)
    · exact Nat.zero_le _

theorem nodeAfter_cons (a : Array Nat) (c : Nat) (l : List Nat) (pos : Nat) :
    nodeAfter a (c :: l) pos =
      nodeAfter a l (pos ^^^ DoubleArrayUnit.offset (unitAt a pos) ^^^ c) := rfl

theorem travGo_spec (a : Array Nat) (key : List Nat) (np kp : Nat) :
    travGo a key np kp =
      (let m := matchSteps a key np
       let fin := nodeAfter a (key.take m) np
       if m = key.length then
         (if DoubleArrayUnit.has_leaf (unitAt a fin) then
           (Int.ofNat (DoubleArrayUnit.value
             (unitAt a (fin ^^^ DoubleArrayUnit.offset (unitAt a fin)))), fin, kp + m)
          else (-1, fin, kp + m))
       else (-2, fin, kp + m)) := by
  induction key generalizing np kp with
  | nil => simp [travGo, matchSteps, nodeAfter]
  | cons c rest ih =>
    unfold travGo matchSteps
    dsimp only
    by_cases h : DoubleArrayUnit.label
        (unitAt a (np ^^^ DoubleArrayUnit.offset (unitAt a np) ^^^ c)) = c
    · rw [if_pos h, if_pos h, ih]
      have hle := matchSteps_le a rest (np ^^^ DoubleArrayUnit.offset (unitAt a np) ^^^ c)
      dsimp only
      rw [List.take_succ_cons, nodeAfter_cons, show kp + 1 +
          matchSteps a rest (np ^^^ DoubleArrayUnit.offset (unitAt a np) ^^^ c) =
          kp + (matchSteps a rest (np ^^^ DoubleArrayUnit.offset (unitAt a np) ^^^ c) + 1)
          by omega]
      simp only [List.length_cons, Nat.add_right_cancel_iff]
    · rw [if_neg h, if_neg h, if_neg (by simp)]
      simp [nodeAfter]

theorem exactGo_eq_travGo (a : Array Nat) (key : List Nat) (pos : Nat) :
    exactGo a key pos =
      (if (travGo a key pos 0).1 = -2 then -1 else (travGo a key pos 0).1) := by
  induction key generalizing pos with
  | nil =>
    unfold exactGo travGo
    dsimp only
    split
    · rfl
    · rfl
  | cons c rest ih =>
    unfold exactGo travGo
    dsimp only
    by_cases h : DoubleArrayUnit.label
        (unitAt a (pos ^^^ DoubleArrayUnit.offset (unitAt a pos) ^^^ c)) = c
    · rw [if_pos h, if_pos h, ih]
      have hshift : ∀ kp j, (travGo a rest
          (pos ^^^ DoubleArrayUnit.offset (unitAt a pos) ^^^ c) kp).1 =
          (travGo a rest (pos ^^^ DoubleArrayUnit.offset (unitAt a pos) ^^^ c) j).1 := by
        intro kp j
        rw [travGo_spec, travGo_spec]
        dsimp only
        split
        · split <;> rfl
        · rfl
      rw [hshift 1 0]
    · rw [if_neg h, if_neg h]
      rfl

/-- C3: for every unit array — in particular every built dictionary — and
every key, `traverse` from `(node_pos, key_pos = 0)` returns the leaf value
(the same value `exactMatchSearch` reports) when every byte matches and the
final node has a leaf; `-1` when every byte matches but the final node has no
leaf; and `-2` on the first label mismatch, in which case `node_pos` is left
at the last matching node (`nodeAfter` of the matched prefix) and `key_pos`
at the index of the offending byte (`matchSteps`). -/
theorem traverse_trichotomy (a : Array Nat) (key : List Nat) (np : Nat) :
    (traverse a key np 0 =
      (let m := matchSteps a key np
       let fin := nodeAfter a (key.take m) np
       if m = key.length then
         (if DoubleArrayUnit.has_leaf (unitAt a fin) then
           (Int.ofNat (DoubleArrayUnit.value
             (unitAt a (fin ^^^ DoubleArrayUnit.offset (unitAt a fin)))), fin, m)
          else (-1, fin, m))
       else (-2, fin, m))) ∧
    exactMatchSearch a key np =
      (if (traverse a key np 0).1 = -2 then -1 else (traverse a key np 0).1) := by
  constructor
  · show travGo a (key.drop 0) np 0 = _
    rw [List.drop_zero, travGo_spec]
    dsimp only
    split
    · split <;> simp
    · simp
  · show exactGo a key np = _
    rw [exactGo_eq_travGo]
    rfl

end Darts

namespace Darts

/-! ## Claim C7: composability of `traverse` -/

theorem travGo_nil (a : Array Nat) (pos kp : Nat) :
    travGo a [] pos kp =
      (let u := unitAt a pos
       if DoubleArrayUnit.has_leaf u then
         (Int.ofNat (DoubleArrayUnit.value (unitAt a (pos ^^^ DoubleArrayUnit.offset u))), pos, kp)
       else (-1, pos, kp)) := rfl

theorem travGo_cons (a : Array Nat) (c : Nat) (l : List Nat) (pos kp : Nat) :
    travGo a (c :: l) pos kp =
      (let pos₁ := pos ^^^ DoubleArrayUnit.offset (unitAt a pos) ^^^ c
       if DoubleArrayUnit.label (unitAt a pos₁) = c then travGo a l pos₁ (kp + 1)
       else (-2, pos, kp)) := rfl

theorem travGo_append (a : Array Nat) (x y : List Nat) (pos kp : Nat) :
    travGo a (x ++ y) pos kp =
      (let t := travGo a x pos kp
       if t.1 = -2 then t else travGo a y t.2.1 t.2.2) := by
  induction x generalizing pos kp with
  | nil =>
    simp only [List.nil_append, travGo_nil]
    by_cases hl : DoubleArrayUnit.has_leaf (unitAt a pos)
    · rw [if_pos hl, if_neg (show ¬ ((Int.ofNat (DoubleArrayUnit.value
        (unitAt a (pos ^^^ DoubleArrayUnit.offset (unitAt a pos)))), pos, kp) :
        Int × Nat × Nat).1 = -2 by intro hcon; dsimp only at hcon; rw [Int.ofNat_eq_natCast] at hcon; omega)]
    · rw [if_neg hl, if_neg (show ¬ (((-1 : Int), pos, kp) :
        Int × Nat × Nat).1 = -2 by intro hcon; dsimp only at hcon; omega)]
  | cons c rest ih =>
    simp only [List.cons_append, travGo_cons]
    by_cases h : DoubleArrayUnit.label
        (unitAt a (pos ^^^ DoubleArrayUnit.offset (unitAt a pos) ^^^ c)) = c
    · rw [if_pos h, if_pos h, ih]
    · rw [if_neg h, if_neg h]
      dsimp only
      rw [if_pos rfl]

theorem mismatch_at (a : Array Nat) (key : List Nat) (pos : Nat)
    (h : matchSteps a key pos < key.length) :
    ∃ c tail, key.drop (matchSteps a key pos) = c :: tail ∧
      DoubleArrayUnit.label (unitAt a
        (nodeAfter a (key.take (matchSteps a key pos)) pos ^^^
          DoubleArrayUnit.offset
            (unitAt a (nodeAfter a (key.take (matchSteps a key pos)) pos)) ^^^ c)) ≠ c := by
  induction key generalizing pos with
  | nil => simp [matchSteps] at h
  | cons c rest ih =>
    by_cases hl : DoubleArrayUnit.label
        (unitAt a (pos ^^^ DoubleArrayUnit.offset (unitAt a pos) ^^^ c)) = c
    · have hm : matchSteps a (c :: rest) pos =
          matchSteps a rest (pos ^^^ DoubleArrayUnit.offset (unitAt a pos) ^^^ c) + 1 := by
        simp [matchSteps, hl]
      rw [hm] at h ⊢
      rw [List.drop_succ_cons, List.take_succ_cons, nodeAfter_cons]
      exact ih _ (by simpa using h)
    · have hm : matchSteps a (c :: rest) pos = 0 := by
        simp [matchSteps, hl]
      rw [hm]
      exact ⟨c, rest, rfl, by simpa [nodeAfter] using hl⟩

/-- C7: `traverse` is composable: for every unit array — in particular every
built dictionary — walking the concatenation `k1 ++ k2` from the initial state
`(node_pos, key_pos) = (0, 0)` produces the same result and final state as
walking `k1` from the initial state and then resuming `traverse` on the
remainder of the buffer (positions `key_pos` onwards of `k1 ++ k2`, i.e. the
bytes of `k2` when `k1` matched) from the intermediate `(node_pos, key_pos)`. -/
theorem traverse_composable (a : Array Nat) (k1 k2 : List Nat) :
    traverse a (k1 ++ k2) 0 0 =
      traverse a (k1 ++ k2) (traverse a k1 0 0).2.1 (traverse a k1 0 0).2.2 := by
  unfold traverse
  rw [List.drop_zero, List.drop_zero, travGo_append]
  dsimp only
  have hs := travGo_spec a k1 0 0
  have hle := matchSteps_le a k1 0
  by_cases h2 : (travGo a k1 0 0).1 = -2
  · rw [if_pos h2]
    have hmlt : matchSteps a k1 0 < k1.length := by
      rcases Nat.lt_or_ge (matchSteps a k1 0) k1.length with hlt | hge
      · exact hlt
      · exfalso
        have hm : matchSteps a k1 0 = k1.length := by omega
        rw [hs] at h2
        dsimp only at h2
        rw [if_pos hm] at h2
        split at h2
        · dsimp only at h2
          rw [Int.ofNat_eq_natCast] at h2
          omega
        · dsimp only at h2
          omega
    have ht : travGo a k1 0 0 =
        (-2, nodeAfter a (k1.take (matchSteps a k1 0)) 0, matchSteps a k1 0) := by
      rw [hs]
      dsimp only
      rw [if_neg (by omega), Nat.zero_add]
    rw [ht]
    dsimp only
    obtain ⟨c, tail, hdrop, hlab⟩ := mismatch_at a k1 0 hmlt
    rw [List.drop_append_of_le_length (by omega), hdrop, List.cons_append,
      travGo_cons]
    dsimp only
    rw [if_neg hlab]
  · rw [if_neg h2]
    have hm : matchSteps a k1 0 = k1.length := by
      by_contra hc
      rw [hs] at h2
      dsimp only at h2
      rw [if_neg hc] at h2
      exact h2 rfl
    have h22 : (travGo a k1 0 0).2.2 = k1.length := by
      rw [hs]
      dsimp only
      rw [if_pos hm]
      split <;> (dsimp only; omega)
    rw [h22, List.drop_left]

end Darts

namespace Darts

/-! ## BitVector (darts.h lines 661-757) -/

/-- Source `pop_count` (mask-and-add popcount on a 32-bit word). -/
def popCount (u : Nat) : Nat :=
  let u₁ := ((u &&& 0xAAAAAAAA) >>> 1) + (u &&& 0x55555555)
  let u₂ := ((u₁ &&& 0xCCCCCCCC) >>> 2) + (u₁ &&& 0x33333333)
  let u₃ := ((u₂ >>> 4) + u₂) &&& 0x0F0F0F0F
  let u₄ := u₃ + (u₃ >>> 8)
  let u₅ := u₄ + (u₄ >>> 16)
  u₅ &&& 0xFF

/-- Succinct bit vector over 32-bit words with a per-word rank index. -/
structure BitVector where
  units : Array Nat
  ranks : Array Nat
  num_ones : Nat
  size : Nat
deriving DecidableEq

def BitVector.empty : BitVector := ⟨#[], #[], 0, 0⟩

/-- Source `operator[]`. -/
def BitVector.get (bv : BitVector) (i : Nat) : Bool :=
  ((bv.units.getD (i / 32) 0) >>> (i % 32)) &&& 1 == 1

/-- Source `set(id, bit)`. -/
def BitVector.set (bv : BitVector) (i : Nat) (b : Bool) : BitVector :=
  let w := bv.units.getD (i / 32) 0
  let w₁ := if b then w ||| (1 <<< (i % 32)) else w &&& (0xFFFFFFFF ^^^ (1 <<< (i % 32)))
  { bv with units := bv.units.setD (i / 32) w₁ }

/-- Source `append()`: adds one `0` bit. -/
def BitVector.append (bv : BitVector) : BitVector :=
  { bv with
    units := if bv.size % 32 = 0 then bv.units.push 0 else bv.units
    size := bv.size + 1 }

/-- Per-word prefix ranks together with the total number of set bits. -/
def buildRanks : List Nat → Nat → List Nat × Nat
  | [], acc => ([], acc)
  | u :: rest, acc =>
    let (rs, total) := buildRanks rest (acc + popCount u)
    (acc :: rs, total)

/-- Source `build()`: fills the rank index and `num_ones_`. -/
def BitVector.build (bv : BitVector) : BitVector :=
  let (rs, total) := buildRanks bv.units.toList 0
  { bv with ranks := List.toArray rs, num_ones := total }

/-- Source `rank(id)`: set bits in `[0..id]`. -/
def BitVector.rank (bv : BitVector) (i : Nat) : Nat :=
  bv.ranks.getD (i / 32) 0 +
    popCount ((bv.units.getD (i / 32) 0) &&& (0xFFFFFFFF >>> (31 - i % 32)))

/-! ## DawgNode and DawgUnit (darts.h lines 763-825) -/

/-- Mutable build-time DAWG node. -/
structure DawgNode where
  child : Nat
  sibling : Nat
  label : Nat
  is_state : Bool
  has_sibling : Bool
deriving DecidableEq

instance : Inhabited DawgNode := ⟨⟨0, 0, 0, false, false⟩⟩

/-- Source `DawgNode::unit()`: packed encoding, leaf-style for `label == 0`;
the result is a 32-bit `id_type`, hence the wrap. -/
def DawgNode.unit (n : DawgNode) : Nat :=
  (if n.label = 0 then (n.child <<< 1) ||| (if n.has_sibling then 1 else 0)
   else (n.child <<< 2) ||| (if n.is_state then 2 else 0) |||
     (if n.has_sibling then 1 else 0)) % 4294967296

namespace DawgUnit

/-- Source `DawgUnit::child()`. -/
def child (u : Nat) : Nat := u >>> 2

/-- Source `DawgUnit::has_sibling()`. -/
def has_sibling (u : Nat) : Bool := u &&& 1 == 1

/-- Source `DawgUnit::value()`. -/
def value (u : Nat) : Nat := u >>> 1

/-- Source `DawgUnit::is_state()`. -/
def is_state (u : Nat) : Bool := u &&& 2 == 2

end DawgUnit

/-! ## DawgBuilder (darts.h lines 831-1176)

State-passing model.  The node stack and recycle bin are lists whose head is
the stack top.  Loops that follow sibling chains or probe the hash table get
fuel; every concrete run below stays within it. -/

structure DawgBuilder where
  nodes : Array DawgNode
  units : Array Nat
  labels : Array Nat
  isIntersections : BitVector
  table : Array Nat
  nodeStack : List Nat
  recycleBin : List Nat
  numStates : Nat
deriving DecidableEq

/-- Source 32-bit mix `hash(key)` (Thomas Wang), with explicit wrap-around. -/
def hash32 (key : Nat) : Nat :=
  let k₁ := ((key ^^^ 0xFFFFFFFF) + (key <<< 15)) % 4294967296
  let k₂ := k₁ ^^^ (k₁ >>> 12)
  let k₃ := (k₂ + (k₂ <<< 2)) % 4294967296
  let k₄ := k₃ ^^^ (k₃ >>> 4)
  let k₅ := (k₄ * 2057) % 4294967296
  k₅ ^^^ (k₅ >>> 16)

/-- Source `hash_unit(id)`: XOR-combine the hashes of the sibling run
`id, id+1, ...` until `has_sibling` is false. -/
def hashUnitGo (units labels : Array Nat) : Nat → Nat → Nat → Nat
  | 0, _, acc => acc
  | fuel + 1, id, acc =>
    if id = 0 then acc
    else
      let u := units.getD id 0
      let l := labels.getD id 0
      let acc₁ := acc ^^^ hash32 ((l <<< 24) ^^^ u)
      if DawgUnit.has_sibling u then hashUnitGo units labels fuel (id + 1) acc₁ else acc₁

def DawgBuilder.hash_unit (s : DawgBuilder) (id : Nat) : Nat :=
  hashUnitGo s.units s.labels (s.units.size + 1) id 0

/-- Source `hash_node(id)`: XOR-combine the hashes along the sibling chain. -/
def hashNodeGo (nodes : Array DawgNode) : Nat → Nat → Nat → Nat
  | 0, _, acc => acc
  | fuel + 1, id, acc =>
    if id = 0 then acc
    else
      let n := nodes.getD id default
      hashNodeGo nodes fuel n.sibling (acc ^^^ hash32 ((n.label <<< 24) ^^^ n.unit))

def DawgBuilder.hash_node (s : DawgBuilder) (id : Nat) : Nat :=
  hashNodeGo s.nodes (s.nodes.size + 1) id 0

/-- First loop of source `are_equal`: advance `unit_id` once per extra sibling
of the node chain, requiring `has_sibling` on the unit run throughout. -/
def areEqualGoUp (nodes : Array DawgNode) (units : Array Nat) :
    Nat → Nat → Nat → Option Nat
  | 0, _, _ => none
  | fuel + 1, i, unit_id =>
    if i = 0 then some unit_id
    else if DawgUnit.has_sibling (units.getD unit_id 0) = false then none
    else areEqualGoUp nodes units fuel (nodes.getD i default).sibling (unit_id + 1)

/-- Second loop of source `are_equal`: walk the chain comparing packed units
and labels while decrementing `unit_id`. -/
def areEqualGoDown (nodes : Array DawgNode) (units labels : Array Nat) :
    Nat → Nat → Nat → Bool
  | 0, _, _ => false
  | fuel + 1, i, unit_id =>
    if i = 0 then true
    else
      let n := nodes.getD i default
      if n.unit ≠ units.getD unit_id 0 ∨ n.label ≠ labels.getD unit_id 0 then false
      else areEqualGoDown nodes units labels fuel n.sibling (unit_id - 1)

def DawgBuilder.are_equal (s : DawgBuilder) (node_id unit_id : Nat) : Bool :=
  match areEqualGoUp s.nodes s.units (s.nodes.size + 1)
      (s.nodes.getD node_id default).sibling unit_id with
  | none => false
  | some uid =>
    if DawgUnit.has_sibling (s.units.getD uid 0) then false
    else areEqualGoDown s.nodes s.units s.labels (s.nodes.size + 1) node_id uid

/-- Source `find_node`: linear probe from the node hash; returns
`(match_id, hash_id)`, `match_id = 0` meaning no equal registered chain. -/
def findNodeGo (s : DawgBuilder) (node_id : Nat) : Nat → Nat → Nat × Nat
  | 0, h => (0, h)
  | fuel + 1, h =>
    let unit_id := s.table.getD h 0
    if unit_id = 0 then (0, h)
    else if s.are_equal node_id unit_id then (unit_id, h)
    else findNodeGo s node_id fuel ((h + 1) % s.table.size)

def DawgBuilder.find_node (s : DawgBuilder) (node_id : Nat) : Nat × Nat :=
  findNodeGo s node_id (s.table.size + 1) (s.hash_node node_id % s.table.size)

/-- Source `find_unit`: probe to the first empty table slot, returning its
index (used only while rehashing). -/
def findUnitGo (table : Array Nat) : Nat → Nat → Nat
  | 0, h => h
  | fuel + 1, h =>
    if table.getD h 0 = 0 then h else findUnitGo table fuel ((h + 1) % table.size)

def DawgBuilder.find_unit (s : DawgBuilder) (id : Nat) : Nat :=
  findUnitGo s.table (s.table.size + 1) (s.hash_unit id % s.table.size)

/-- Source `expand_table`: double the table and re-register every sibling
chain head (`label == 0` or `is_state`). -/
def DawgBuilder.expand_table (s : DawgBuilder) : DawgBuilder :=
  let tableSize := s.table.size <<< 1
  let s₁ := { s with table := Array.mkArray tableSize 0 }
  (List.range s₁.units.size).foldl (fun t i =>
    if i ≥ 1 ∧ (t.labels.getD i 0 = 0 ∨ DawgUnit.is_state (t.units.getD i 0)) then
      { t with table := t.table.setD (t.find_unit i) i }
    else t) s₁

/-- Source `append_unit`. -/
def DawgBuilder.append_unit (s : DawgBuilder) : DawgBuilder × Nat :=
  let s₁ := { s with
    isIntersections := s.isIntersections.append
    units := s.units.push 0
    labels := s.labels.push 0 }
  (s₁, s₁.isIntersections.size - 1)

/-- Source `append_node`: reuse the recycle bin when possible. -/
def DawgBuilder.append_node (s : DawgBuilder) : DawgBuilder × Nat :=
  match s.recycleBin with
  | [] => ({ s with nodes := s.nodes.push default }, s.nodes.size)
  | id :: bin => ({ s with nodes := s.nodes.setD id default, recycleBin := bin }, id)

/-- Point update of one node. -/
def modifyNode (s : DawgBuilder) (i : Nat) (f : DawgNode → DawgNode) : DawgBuilder :=
  { s with nodes := s.nodes.setD i (f (s.nodes.getD i default)) }

/-- Sibling-chain length (`num_siblings` count of source `flush`). -/
def countSiblings (nodes : Array DawgNode) : Nat → Nat → Nat
  | 0, _ => 0
  | fuel + 1, i =>
    if i = 0 then 0 else countSiblings nodes fuel (nodes.getD i default).sibling + 1

/-- Append `n` fresh units (the first loop of `flush`'s else-branch),
returning the last appended id. -/
def appendUnits (s : DawgBuilder) : Nat → DawgBuilder × Nat
  | 0 => (s, 0)
  | n + 1 =>
    let (s₁, id) := s.append_unit
    match n with
    | 0 => (s₁, id)
    | m + 1 => appendUnits s₁ (m + 1)

/-- Write the sibling chain into `units_`/`labels_` at descending ids
(the second loop of `flush`'s else-branch); returns the final `unit_id`
after the last decrement. -/
def writeChain (nodes : Array DawgNode) : Nat → Nat → Nat →
    Array Nat → Array Nat → Array Nat × Array Nat × Nat
  | 0, _, unit_id, units, labels => (units, labels, unit_id)
  | fuel + 1, i, unit_id, units, labels =>
    if i = 0 then (units, labels, unit_id)
    else
      let n := nodes.getD i default
      writeChain nodes fuel n.sibling (unit_id - 1)
        (units.setD unit_id n.unit) (labels.setD unit_id n.label)

/-- Push every node of the chain onto the recycle bin (source frees them). -/
def freeChain (nodes : Array DawgNode) : Nat → Nat → List Nat → List Nat
  | 0, _, bin => bin
  | fuel + 1, i, bin =>
    if i = 0 then bin
    else freeChain nodes fuel (nodes.getD i default).sibling (i :: bin)

/-- Body of the source `flush` while-loop, recursing on the stack depth. -/
def flushLoop (id : Nat) : Nat → DawgBuilder → DawgBuilder
  | 0, s => s
  | fuel + 1, s =>
    match s.nodeStack with
    | [] => s
    | top :: restStack =>
      if top = id then s
      else
        let s₁ := { s with nodeStack := restStack }
        let s₂ := if s₁.numStates ≥ s₁.table.size - (s₁.table.size >>> 2) then
          s₁.expand_table else s₁
        let numSiblings := countSiblings s₂.nodes (s₂.nodes.size + 1) top
        let (matchId, hashId) := s₂.find_node top
        let (s₃, matchId₁) :=
          if matchId ≠ 0 then
            ({ s₂ with isIntersections := s₂.isIntersections.set matchId true }, matchId)
          else
            let (sa, _) := appendUnits s₂ numSiblings
            let (units₁, labels₁, unitId) :=
              writeChain sa.nodes (sa.nodes.size + 1) top (sa.units.size - 1)
                sa.units sa.labels
            let mid := unitId + 1
            let sb := { sa with
              units := units₁
              labels := labels₁
              table := sa.table.setD hashId mid
              numStates := sa.numStates + 1 }
            (sb, mid)
        let s₄ := { s₃ with recycleBin := freeChain s₃.nodes (s₃.nodes.size + 1) top s₃.recycleBin }
        let s₅ := match s₄.nodeStack with
          | [] => s₄
          | newTop :: _ => modifyNode s₄ newTop (fun n => { n with child := matchId₁ })
        flushLoop id fuel s₅

/-- Source `flush(id)`: pop and hash-cons every stack entry above `id`,
then pop `id` itself. -/
def DawgBuilder.flush (s : DawgBuilder) (id : Nat) : DawgBuilder :=
  let s₁ := flushLoop id s.nodeStack.length s
  { s₁ with nodeStack := s₁.nodeStack.tail }

/-- Outcome of the descent loop of source `insert`. -/
inductive DescendOut where
  | err : DescendOut
  | done : DescendOut
  | stop (id key_pos : Nat) (branch : Option Nat) : DescendOut
deriving DecidableEq

/-- Descent loop of source `insert` (darts.h lines 939-959): walk existing
children while labels match; `err` on a smaller key byte (wrong order),
`stop _ _ (some child)` on a larger one (branch: mark `has_sibling`, flush),
`stop _ _ none` when a node has no child, `done` when the whole key (and its
terminal) already exists.  `rem` is the number of loop iterations left,
`key.length + 1 - key_pos`. -/
def descendGo (nodes : Array DawgNode) (key : List Nat) :
    Nat → Nat → Nat → DescendOut
  | _, 0, _ => DescendOut.done
  | id, rem + 1, key_pos =>
    let child_id := (nodes.getD id default).child
    if child_id = 0 then DescendOut.stop id key_pos none
    else
      let key_label := key.getD key_pos 0
      let unit_label := (nodes.getD child_id default).label
      if key_label < unit_label then DescendOut.err
      else if unit_label < key_label then DescendOut.stop id key_pos (some child_id)
      else descendGo nodes key child_id rem (key_pos + 1)

/-- Append loop of source `insert` (darts.h lines 964-978): prepend one fresh
node per remaining key position (terminal included); returns the final node. -/
def appendGo (s : DawgBuilder) (key : List Nat) : Nat → Nat → Nat → DawgBuilder × Nat
  | id, 0, _ => (s, id)
  | id, rem + 1, key_pos =>
    let key_label := key.getD key_pos 0
    let (s₁, child_id) := s.append_node
    let s₂ := if (s₁.nodes.getD id default).child = 0 then
      modifyNode s₁ child_id (fun n => { n with is_state := true }) else s₁
    let s₃ := modifyNode s₂ child_id
      (fun n => { n with sibling := (s₂.nodes.getD id default).child })
    let s₄ := modifyNode s₃ child_id (fun n => { n with label := key_label })
    let s₅ := modifyNode s₄ id (fun n => { n with child := child_id })
    let s₆ := { s₅ with nodeStack := child_id :: s₅.nodeStack }
    appendGo s₆ key child_id rem (key_pos + 1)

/-- Source `insert(key, length, value)`; the key is its byte list, `length`
is `key.length`, positions `0..length` are scanned with position `length`
denoting the terminal byte `0x00`. -/
def DawgBuilder.insert (s : DawgBuilder) (key : List Nat) (v : Int) :
    Except String DawgBuilder :=
  if v < 0 then Except.error "failed to insert key: negative value"
  else if key.length = 0 then Except.error "failed to insert key: zero-length key"
  else
    match descendGo s.nodes key 0 (key.length + 1) 0 with
    | DescendOut.err => Except.error "failed to insert key: wrong key order"
    | DescendOut.done => Except.ok s
    | DescendOut.stop id key_pos branch =>
      let s₁ := match branch with
        | none => s
        | some child_id =>
          (modifyNode s child_id (fun n => { n with has_sibling := true })).flush child_id
      let (s₂, last) := appendGo s₁ key id (key.length + 1 - key_pos) key_pos
      Except.ok (modifyNode s₂ last (fun n => { n with child := v.toNat }))

/-- Source `init()`. -/
def DawgBuilder.init : DawgBuilder :=
  { nodes := #[{ child := 0, sibling := 0, label := 0xFF,
                 is_state := false, has_sibling := false }]
    units := #[0]
    labels := #[0]
    isIntersections := BitVector.empty.append
    table := Array.mkArray 1024 0
    nodeStack := [0]
    recycleBin := []
    numStates := 1 }

/-- Source `finish()`: flush everything, install the root unit, clear the
transients and build the intersection rank index. -/
def DawgBuilder.finish (s : DawgBuilder) : DawgBuilder :=
  let s₁ := s.flush 0
  let root := s₁.nodes.getD 0 default
  { s₁ with
    units := s₁.units.setD 0 root.unit
    labels := s₁.labels.setD 0 root.label
    nodes := #[]
    table := #[]
    nodeStack := []
    recycleBin := []
    isIntersections := s₁.isIntersections.build }

/-! Read accessors of the finished DAWG used by `DoubleArrayBuilder`
(darts.h lines 838-855). -/

def DawgBuilder.child (s : DawgBuilder) (id : Nat) : Nat :=
  DawgUnit.child (s.units.getD id 0)

def DawgBuilder.sibling (s : DawgBuilder) (id : Nat) : Nat :=
  if DawgUnit.has_sibling (s.units.getD id 0) then id + 1 else 0

def DawgBuilder.value (s : DawgBuilder) (id : Nat) : Nat :=
  DawgUnit.value (s.units.getD id 0)

def DawgBuilder.label (s : DawgBuilder) (id : Nat) : Nat :=
  s.labels.getD id 0

def DawgBuilder.is_leaf (s : DawgBuilder) (id : Nat) : Bool :=
  s.label id = 0

def DawgBuilder.is_intersection (s : DawgBuilder) (id : Nat) : Bool :=
  s.isIntersections.get id

def DawgBuilder.intersection_id (s : DawgBuilder) (id : Nat) : Nat :=
  s.isIntersections.rank id - 1

def DawgBuilder.num_intersections (s : DawgBuilder) : Nat :=
  s.isIntersections.num_ones

def DawgBuilder.size (s : DawgBuilder) : Nat :=
  s.units.size

end Darts

namespace Darts

/-! ## DoubleArrayBuilder (darts.h lines 1222-1559)

State of the DAWG-to-double-array converter.  For fast kernel evaluation the
32-bit-word containers are base-`2^32` digit sequences packed into single
naturals: digit `i` of `units` is the builder unit word `units_[i]` (the
`AutoPool` buffer, whose `size_` is the separate field `numUnits`), and digit
`j < 4096` of `prevs`/`nexts` together with bit `j` of `fixeds`/`useds` is the
record `extras_[j]` (the `id % NUM_EXTRAS` window).  `wordGet`/`wordSet`
below are ordinary array indexing and assignment on such digit sequences. -/

/-- Digit `i` of a base-`2^32` digit sequence: `a[i]`. -/
def wordGet (a i : Nat) : Nat :=
  a / 4294967296 ^ i % 4294967296

/-- Digit assignment `a[i] = v` on a base-`2^32` digit sequence. -/
def wordSet (a i v : Nat) : Nat :=
  a % 4294967296 ^ i + (v % 4294967296) * 4294967296 ^ i +
    a / 4294967296 ^ (i + 1) * (4294967296 ^ (i + 1))

/-- Source `DoubleArrayBuilderExtraUnit` (a read-out view of one record). -/
structure ExtraUnit where
  prev : Nat
  next : Nat
  is_fixed : Bool
  is_used : Bool
deriving DecidableEq

instance : Inhabited ExtraUnit := ⟨⟨0, 0, false, false⟩⟩

structure DoubleArrayBuilder where
  units : Nat
  numUnits : Nat
  prevs : Nat
  nexts : Nat
  fixeds : Nat
  useds : Nat
  labels : List Nat
  table : Array Nat
  extrasHead : Nat
deriving DecidableEq

/-- Source `BLOCK_SIZE = 256`, `NUM_EXTRA_BLOCKS = 16`, `NUM_EXTRAS = 4096`. -/
def NUM_EXTRAS : Nat := 4096

def UPPER_MASK : Nat := 0xFF <<< 21

def LOWER_MASK : Nat := 0xFF

def DoubleArrayBuilder.num_blocks (s : DoubleArrayBuilder) : Nat :=
  s.numUnits / 256

/-- Source `extras(id)`: the record at `id % NUM_EXTRAS`. -/
def DoubleArrayBuilder.extrasAt (s : DoubleArrayBuilder) (id : Nat) : ExtraUnit :=
  { prev := wordGet s.prevs (id % NUM_EXTRAS)
    next := wordGet s.nexts (id % NUM_EXTRAS)
    is_fixed := s.fixeds.testBit (id % NUM_EXTRAS)
    is_used := s.useds.testBit (id % NUM_EXTRAS) }

/-- Source `extras(id).set_prev(p)`. -/
def setPrev (s : DoubleArrayBuilder) (id p : Nat) : DoubleArrayBuilder :=
  { s with prevs := wordSet s.prevs (id % NUM_EXTRAS) p }

/-- Source `extras(id).set_next(n)`. -/
def setNext (s : DoubleArrayBuilder) (id n : Nat) : DoubleArrayBuilder :=
  { s with nexts := wordSet s.nexts (id % NUM_EXTRAS) n }

/-- Source `extras(id).set_is_fixed(b)`. -/
def setIsFixed (s : DoubleArrayBuilder) (id : Nat) (b : Bool) : DoubleArrayBuilder :=
  { s with fixeds := if b then s.fixeds ||| (1 <<< (id % NUM_EXTRAS))
    else s.fixeds &&& ((2 ^ NUM_EXTRAS - 1) ^^^ (1 <<< (id % NUM_EXTRAS))) }

/-- Source `extras(id).set_is_used(b)`. -/
def setIsUsed (s : DoubleArrayBuilder) (id : Nat) (b : Bool) : DoubleArrayBuilder :=
  { s with useds := if b then s.useds ||| (1 <<< (id % NUM_EXTRAS))
    else s.useds &&& ((2 ^ NUM_EXTRAS - 1) ^^^ (1 <<< (id % NUM_EXTRAS))) }

/-- Source `units_[id].set_has_leaf(b)`. -/
def setHasLeafAt (s : DoubleArrayBuilder) (id : Nat) (b : Bool) : DoubleArrayBuilder :=
  { s with units := wordSet s.units id (BuilderUnit.set_has_leaf (wordGet s.units id) b) }

/-- Source `units_[id].set_value(v)`. -/
def setValueAt (s : DoubleArrayBuilder) (id v : Nat) : DoubleArrayBuilder :=
  { s with units := wordSet s.units id (BuilderUnit.set_value v) }

/-- Source `units_[id].set_label(l)`. -/
def setLabelAt (s : DoubleArrayBuilder) (id l : Nat) : DoubleArrayBuilder :=
  { s with units := wordSet s.units id (BuilderUnit.set_label (wordGet s.units id) l) }

/-- Source `units_[id].set_offset(o)`, propagating the too-large-offset throw. -/
def setOffsetAt (s : DoubleArrayBuilder) (id off : Nat) :
    Except String DoubleArrayBuilder :=
  (BuilderUnit.set_offset (wordGet s.units id) off).map
    (fun w => { s with units := wordSet s.units id w })

/-- Evaluation helper: bring a `Nat` to literal form before continuing.
Semantically the identity continuation (`withForced_eq`). -/
def withForced (n : Nat) (k : Nat → α) : α :=
  match n with
  | 0 => k 0
  | m + 1 => k (m + 1)

theorem withForced_eq (n : Nat) (k : Nat → α) : withForced n k = k n := by
  cases n <;> rfl

/-- Evaluation helper: force every numeric component of the builder state,
then continue.  Semantically the identity continuation (`forceWith_eq`). -/
def DoubleArrayBuilder.forceWith (s : DoubleArrayBuilder) (k : DoubleArrayBuilder → α) : α :=
  withForced s.units fun u =>
  withForced s.numUnits fun nu =>
  withForced s.prevs fun p =>
  withForced s.nexts fun nx =>
  withForced s.fixeds fun fb =>
  withForced s.useds fun ub =>
  withForced s.extrasHead fun h =>
  k { units := u, numUnits := nu, prevs := p, nexts := nx, fixeds := fb, useds := ub
      labels := s.labels, table := s.table, extrasHead := h }

theorem forceWith_eq (s : DoubleArrayBuilder) (k : DoubleArrayBuilder → α) :
    s.forceWith k = k s := by
  cases s
  simp only [DoubleArrayBuilder.forceWith, withForced_eq]

/-- Left fold that forces the builder state after every step
(semantically `List.foldl`, see `foldForce_eq`). -/
def foldForce (f : DoubleArrayBuilder → Nat → DoubleArrayBuilder) :
    List Nat → DoubleArrayBuilder → DoubleArrayBuilder
  | [], s => s
  | k :: ks, s => (f s k).forceWith (foldForce f ks)

theorem foldForce_eq (f : DoubleArrayBuilder → Nat → DoubleArrayBuilder)
    (l : List Nat) (s : DoubleArrayBuilder) : foldForce f l s = l.foldl f s := by
  induction l generalizing s with
  | nil => rfl
  | cons k ks ih => rw [foldForce, forceWith_eq, List.foldl_cons, ih]

/-- Source `is_valid_offset(id, offset)`. -/
def DoubleArrayBuilder.is_valid_offset (s : DoubleArrayBuilder) (id offset : Nat) : Bool :=
  if (s.extrasAt offset).is_used then false
  else
    let rel := id ^^^ offset
    if (rel &&& LOWER_MASK) ≠ 0 ∧ (rel &&& UPPER_MASK) ≠ 0 then false
    else (List.range s.labels.length).all (fun i =>
      i = 0 ∨ (s.extrasAt (offset ^^^ s.labels.getD i 0)).is_fixed = false)

/-- Walk of source `find_valid_offset`: do-while over the circular free list
starting at `extras_head_`. -/
def findValidOffsetGo (s : DoubleArrayBuilder) (id : Nat) : Nat → Nat → Nat
  | 0, _ => s.numUnits ||| (id &&& LOWER_MASK)
  | fuel + 1, unfixed_id =>
    let offset := unfixed_id ^^^ s.labels.getD 0 0
    if s.is_valid_offset id offset then offset
    else
      let nxt := (s.extrasAt unfixed_id).next
      if nxt = s.extrasHead then s.numUnits ||| (id &&& LOWER_MASK)
      else findValidOffsetGo s id fuel nxt

/-- Source `find_valid_offset(id)`. -/
def DoubleArrayBuilder.find_valid_offset (s : DoubleArrayBuilder) (id : Nat) : Nat :=
  if s.extrasHead ≥ s.numUnits then s.numUnits ||| (id &&& LOWER_MASK)
  else findValidOffsetGo s id (s.numUnits + 1) s.extrasHead

/-- Child labels of a DAWG node in sibling order (`arrange_children` prologue). -/
def collectLabels (dawg : DawgBuilder) : Nat → Nat → List Nat → List Nat
  | 0, _, acc => acc
  | fuel + 1, child, acc =>
    if child = 0 then acc
    else collectLabels dawg fuel (dawg.sibling child) (acc ++ [dawg.label child])

mutual

/-- Source `expand_units()`: optionally retire the oldest block, grow by one
256-slot block (fresh units are zero), thread the new slots into the circular
free list and splice them in front of `extras_head_`. -/
def expand_units : Nat → DoubleArrayBuilder → DoubleArrayBuilder
  | 0, s => s
  | fuel + 1, s₀ => s₀.forceWith fun s =>
    let srcNumUnits := s.numUnits
    let srcNumBlocks := s.num_blocks
    let destNumUnits := srcNumUnits + 256
    let destNumBlocks := srcNumBlocks + 1
    let s₁ := if destNumBlocks > 16 then fix_block fuel s (srcNumBlocks - 16) else s
    let s₂ := { s₁ with numUnits := destNumUnits }
    let s₃ := if destNumBlocks > 16 then
        foldForce (fun t k =>
          setIsFixed (setIsUsed t (srcNumUnits + k) false) (srcNumUnits + k) false)
          (List.range 256) s₂
      else s₂
    let s₄ := foldForce (fun t k =>
        let i := srcNumUnits + k + 1
        setPrev (setNext t (i - 1) i) i (i - 1)) (List.range 255) s₃
    let s₅ := setPrev s₄ srcNumUnits (destNumUnits - 1)
    let s₆ := setNext s₅ (destNumUnits - 1) srcNumUnits
    let s₇ := setPrev s₆ srcNumUnits (s₆.extrasAt s₆.extrasHead).prev
    let s₈ := setNext s₇ (destNumUnits - 1) s₇.extrasHead
    let s₉ := setNext s₈ (s₈.extrasAt s₈.extrasHead).prev srcNumUnits
    setPrev s₉ s₉.extrasHead (destNumUnits - 1)

/-- Source `fix_block(block_id)`: record the first not-`is_used` slot of the
block, then reserve every not-`is_fixed` slot, baking in the non-matching
filler label `(id ^ unused_offset) & 0xFF`. -/
def fix_block : Nat → DoubleArrayBuilder → Nat → DoubleArrayBuilder
  | 0, s, _ => s
  | fuel + 1, s₀, block_id => s₀.forceWith fun s =>
    let first := block_id * 256
    let unused_offset := (((List.range 256).map (fun k => first + k)).find?
      (fun o => (s.extrasAt o).is_used = false)).getD 0
    foldForce (fun t k =>
      let id := first + k
      if (t.extrasAt id).is_fixed then t
      else
        let t₁ := reserve_id fuel t id
        setLabelAt t₁ id ((id ^^^ unused_offset) &&& 0xFF)) (List.range 256) s

/-- Source `reserve_id(id)`: expand if beyond the end, advance the head when
reserving it, unlink from the circular list, mark fixed. -/
def reserve_id : Nat → DoubleArrayBuilder → Nat → DoubleArrayBuilder
  | 0, s, _ => s
  | fuel + 1, sIn, id => sIn.forceWith fun s =>
    let s₁ := if id ≥ s.numUnits then expand_units fuel s else s
    let s₂ := if id = s₁.extrasHead then
        let h := (s₁.extrasAt id).next
        { s₁ with extrasHead := if h = id then s₁.numUnits else h }
      else s₁
    let s₃ := setNext s₂ (s₂.extrasAt id).prev (s₂.extrasAt id).next
    let s₄ := setPrev s₃ (s₃.extrasAt id).next (s₃.extrasAt id).prev
    setIsFixed s₄ id true

end

/-- Source `arrange_children(dawg_id, dic_id)`: collect the child labels,
pick a base via `find_valid_offset`, store `dic_id XOR base` as the parent's
offset, reserve each child slot and fill it (value for terminal children,
label otherwise), and finally mark the base `is_used`.  Returns the base. -/
def arrange_children (dawg : DawgBuilder) (fuel : Nat) (sIn : DoubleArrayBuilder)
    (dawg_id dic_id : Nat) : Except String (DoubleArrayBuilder × Nat) :=
  sIn.forceWith fun s => do
  let s₁ := { s with labels := collectLabels dawg (dawg.size + 1) (dawg.child dawg_id) [] }
  let offset := s₁.find_valid_offset dic_id
  let s₂ ← setOffsetAt s₁ dic_id (dic_id ^^^ offset)
  let start : DoubleArrayBuilder × Nat := (s₂, dawg.child dawg_id)
  let step := (List.range s₂.labels.length).foldl (fun (p : DoubleArrayBuilder × Nat) i =>
    let t := p.1
    let dawg_child := p.2
    let dic_child := offset ^^^ t.labels.getD i 0
    let t₁ := reserve_id fuel t dic_child
    let t₂ := if dawg.is_leaf dawg_child then
        setValueAt (setHasLeafAt t₁ dic_id true) dic_child (dawg.value dawg_child)
      else setLabelAt t₁ dic_child (t₁.labels.getD i 0)
    t₂.forceWith (fun t₃ => (t₃, dawg.sibling dawg_child))) start
  let s₃ := setIsUsed step.1 offset true
  pure (s₃, offset)

mutual

/-- Source `build_double_array(dawg_id, dic_id)` (recursive layout); the
returned `Bool` is the C++ return value, which `build` ignores. -/
def build_double_array (dawg : DawgBuilder) :
    Nat → DoubleArrayBuilder → Nat → Nat → Except String (DoubleArrayBuilder × Bool)
  | 0, s, _, _ => Except.ok (s, false)
  | fuel + 1, sIn, dawg_id, dic_id => sIn.forceWith fun s =>
    if dawg.is_leaf dawg_id then Except.ok (s, true)
    else
      let dawg_child_id := dawg.child dawg_id
      let reuse : Option Nat :=
        if dawg.is_intersection dawg_child_id then
          let off := s.table.getD (dawg.intersection_id dawg_child_id) 0
          if off ≠ 0 then
            let off₁ := off ^^^ dic_id
            if (off₁ &&& UPPER_MASK) = 0 ∨ (off₁ &&& LOWER_MASK) = 0 then some off₁
            else none
          else none
        else none
      match reuse with
      | some off₁ => do
        let s₁ := if dawg.is_leaf dawg_child_id then setHasLeafAt s dic_id true else s
        let s₂ ← setOffsetAt s₁ dic_id off₁
        pure (s₂, true)
      | none => do
        let (s₁, offset) ← arrange_children dawg fuel s dawg_id dic_id
        if offset = 0 then pure (s₁, false)
        else
          let s₂ := if dawg.is_intersection dawg_child_id then
              { s₁ with table := s₁.table.setD (dawg.intersection_id dawg_child_id) offset }
            else s₁
          build_da_children dawg fuel s₂ offset dawg_child_id

/-- The do-while loop over the children at the end of `build_double_array`. -/
def build_da_children (dawg : DawgBuilder) :
    Nat → DoubleArrayBuilder → Nat → Nat → Except String (DoubleArrayBuilder × Bool)
  | 0, s, _, _ => Except.ok (s, false)
  | fuel + 1, sIn, offset, dawg_child_id => sIn.forceWith fun s => do
    let dic_child_id := offset ^^^ dawg.label dawg_child_id
    let (s₁, ok) ← build_double_array dawg fuel s dawg_child_id dic_child_id
    if ok = false then pure (s₁, false)
    else
      let next := dawg.sibling dawg_child_id
      if next = 0 then pure (s₁, true)
      else s₁.forceWith (fun s₂ => build_da_children dawg fuel s₂ offset next)

end

/-- Source `fix_all_blocks()`. -/
def fix_all_blocks (fuel : Nat) (sIn : DoubleArrayBuilder) : DoubleArrayBuilder :=
  sIn.forceWith fun s =>
  let first := if s.num_blocks > 16 then s.num_blocks - 16 else 0
  foldForce (fun t k => fix_block fuel t (first + k))
    (List.range (s.num_blocks - first)) s

/-- Source `DoubleArrayBuilder::build(dawg)`: reserve the root (slot 0, used,
offset 1, label 0), lay out the DAWG, freeze the trailing window, clear the
transients (`extras_`, `labels_`, `table_` — the unit array remains). -/
def DoubleArrayBuilder.build (dawg : DawgBuilder) (fuel : Nat) :
    Except String DoubleArrayBuilder := do
  let s₀ : DoubleArrayBuilder :=
    { units := 0, numUnits := 0, prevs := 0, nexts := 0, fixeds := 0, useds := 0
      labels := [], table := Array.mkArray dawg.num_intersections 0, extrasHead := 0 }
  let s₁ := reserve_id fuel s₀ 0
  let s₂ := setIsUsed s₁ 0 true
  let s₃ ← setOffsetAt s₂ 0 1
  let s₄ := setLabelAt s₃ 0 0
  let s₅ ← if dawg.child 0 ≠ 0 then
      (build_double_array dawg fuel s₄ 0 0).map Prod.fst
    else pure s₄
  let s₆ := fix_all_blocks fuel s₅
  pure { s₆ with prevs := 0, nexts := 0, fixeds := 0, useds := 0, labels := [], table := #[] }

/-- Source `copy(size_ptr, buf_ptr)`: the finished unit words, verbatim, as
the flat array the reader consumes. -/
def DoubleArrayBuilder.copy (s : DoubleArrayBuilder) : Array Nat :=
  (List.map (fun i => wordGet s.units i) (List.range s.numUnits)).toArray

/-- Full pipeline of `DoubleArrayImpl::build` (darts.h lines 1567-1613) on
explicit `(key, value)` pairs: feed the sorted pairs to the `DawgBuilder`,
`finish`, convert with `DoubleArrayBuilder::build`, and return the unit
array the reader searches (the `copy` output). -/
def dartsBuild (pairs : List (List Nat × Int)) (fuel : Nat) :
    Except String (Array Nat) := do
  let dawg ← pairs.foldlM (fun t kv => t.insert kv.1 kv.2) DawgBuilder.init
  let dawg₁ := dawg.finish
  let da ← DoubleArrayBuilder.build dawg₁ fuel
  pure da.copy

end Darts
